import Mathlib

/-!
Verification of the canvas-effect core of the pixel-portfolio application
(`src/App.jsx`): the dot-grid field engine (grid build, pointer velocity
sampling, proximity recoloring, displacement state machine), the click-spark
burst engine, and the shared throttle / hex-color helpers.

JavaScript numbers are embedded as rationals (`ℚ`); where the source calls
`Math.hypot` (a square root, irrational in general) the embedding takes the
hypotenuse value as an extra argument constrained by the hypotheses
`0 ≤ h` and `h * h = x * x + y * y`, which characterize it uniquely.
Angles produced by `handleClick` are multiples of π; the embedding stores
the rational coefficient of π (so the source's `2π·i/count` is stored as
`2·i/count`).
-/

namespace PixelPortfolio

/-- An RGB color with integer channels, the result shape of `hexToRgb`. -/
structure Rgb where
  r : ℤ
  g : ℤ
  b : ℤ
deriving DecidableEq, Repr

/-- One character class of the regex `[a-f\d]` with the `i` flag:
digits and hex letters in either case. -/
def isHexDigit (ch : Char) : Bool :=
  (('0' ≤ ch) && (ch ≤ '9')) || (('a' ≤ ch) && (ch ≤ 'f')) || (('A' ≤ ch) && (ch ≤ 'F'))

/-- Numeric value of one hex digit, as `parseInt(·, 16)` assigns it. -/
def hexVal (ch : Char) : ℤ :=
  if ('0' ≤ ch) && (ch ≤ '9') then (ch.toNat : ℤ) - ('0'.toNat : ℤ)
  else if ('a' ≤ ch) && (ch ≤ 'f') then (ch.toNat : ℤ) - ('a'.toNat : ℤ) + 10
  else (ch.toNat : ℤ) - ('A'.toNat : ℤ) + 10

/-- Value of a two-digit hex group, as `parseInt(m[i], 16)` decodes it. -/
def pairVal (a b : Char) : ℤ := 16 * hexVal a + hexVal b

/-- The optional leading `#?` of the regex: strip one leading `#`. -/
def hexBody (hex : List Char) : List Char :=
  match hex with
  | '#' :: rest => rest
  | _ => hex

/-- Whether `hex` matches `/^#?([a-f\d]{2})([a-f\d]{2})([a-f\d]{2})$/i`:
after the optional `#`, exactly six hex digits. -/
def hexMatches (hex : List Char) : Bool :=
  ((hexBody hex).length == 6) && (hexBody hex).all isHexDigit

/-- `hexToRgb` from App.jsx lines 22-30: on a regex match decode the three
two-digit groups, otherwise return `{r: 0, g: 0, b: 0}`. -/
def hexToRgb (hex : List Char) : Rgb :=
  if hexMatches hex then
    match hexBody hex with
    | c1 :: c2 :: c3 :: c4 :: c5 :: c6 :: _ =>
        ⟨pairVal c1 c2, pairVal c3 c4, pairVal c5 c6⟩
    | _ => ⟨0, 0, 0⟩
  else ⟨0, 0, 0⟩

/-- `throttle(func, limit)` from App.jsx lines 11-20 closes over `lastCall`. -/
structure ThrottleState where
  lastCall : ℚ
deriving DecidableEq, Repr

/-- One incoming event at time `now`: fire `func` (and record `now`) iff at
least `limit` has elapsed since the last accepted call, else drop it. -/
def throttleStep (limit : ℚ) (st : ThrottleState) (now : ℚ) : ThrottleState × Bool :=
  if now - st.lastCall ≥ limit then (⟨now⟩, true) else (st, false)

/-- Feed a sequence of event timestamps through the throttle closure,
returning the timestamps at which the wrapped function actually runs. -/
def throttleRun (limit : ℚ) (st : ThrottleState) : List ℚ → List ℚ
  | [] => []
  | now :: rest =>
      let s := throttleStep limit st now
      if s.2 then now :: throttleRun limit s.1 rest else throttleRun limit s.1 rest

/-- The grid's pointer-move handler is wrapped as `throttle(onMove, 50)`
(App.jsx line 217). -/
def gridThrottleLimit : ℚ := 50

/-- One lattice dot as pushed by `buildGrid` (App.jsx line 85):
rest center `(cx, cy)`, elastic offset, and the `_inertiaApplied` guard. -/
structure Dot where
  cx : ℚ
  cy : ℚ
  xOffset : ℚ
  yOffset : ℚ
  inertiaApplied : Bool
deriving DecidableEq, Repr

/-- `cell = dotSize + gap` (App.jsx line 69). -/
def cellSize (dotSize gap : ℚ) : ℚ := dotSize + gap

/-- `cols = Math.floor((width + gap) / (dotSize + gap))` (App.jsx line 67). -/
def gridCols (width dotSize gap : ℚ) : ℤ :=
  ⌊(width + gap) / cellSize dotSize gap⌋

/-- `rows = Math.floor((height + gap) / (dotSize + gap))` (App.jsx line 68). -/
def gridRows (height dotSize gap : ℚ) : ℤ :=
  ⌊(height + gap) / cellSize dotSize gap⌋

/-- `startX = (width - (cell * cols - gap)) / 2 + dotSize / 2`
(App.jsx lines 71, 74, 77). -/
def gridStartX (width dotSize gap : ℚ) : ℚ :=
  (width - (cellSize dotSize gap * gridCols width dotSize gap - gap)) / 2 + dotSize / 2

/-- `startY = (height - (cell * rows - gap)) / 2 + dotSize / 2`
(App.jsx lines 72, 75, 78). -/
def gridStartY (height dotSize gap : ℚ) : ℚ :=
  (height - (cellSize dotSize gap * gridRows height dotSize gap - gap)) / 2 + dotSize / 2

/-- The dot pushed for loop indices `(x, y)` (App.jsx lines 83-85):
`cx = startX + x * cell`, `cy = startY + y * cell`, zero offsets, guard down. -/
def dotAt (width height dotSize gap : ℚ) (x y : ℕ) : Dot :=
  { cx := gridStartX width dotSize gap + x * cellSize dotSize gap
    cy := gridStartY height dotSize gap + y * cellSize dotSize gap
    xOffset := 0, yOffset := 0, inertiaApplied := false }

/-- `buildGrid` (App.jsx lines 52-89): the nested `for y … for x … push`
loops, i.e. rows concatenated in row-major order. A negative loop bound
runs zero iterations, hence `Int.toNat`. -/
def buildGrid (width height dotSize gap : ℚ) : List Dot :=
  (List.range (gridRows height dotSize gap).toNat).flatMap fun y =>
    (List.range (gridCols width dotSize gap).toNat).map fun x =>
      dotAt width height dotSize gap x y

/-- JavaScript `Math.round`: round half toward positive infinity. -/
def jsRound (q : ℚ) : ℤ := ⌊q + 1 / 2⌋

/-- One channel of the proximity recoloring (App.jsx lines 116-118):
`Math.round(base + (active - base) * t)`. -/
def lerpChannel (base active : ℤ) (t : ℚ) : ℤ :=
  jsRound ((base : ℚ) + ((active : ℚ) - (base : ℚ)) * t)

/-- The fill color chosen in `draw` (App.jsx lines 112-120) for a dot at
squared distance `dsq` from the pointer. The source takes
`dist = Math.sqrt(dsq)`; here `dist` is passed explicitly and the theorems
constrain it by `0 ≤ dist` and `dist * dist = dsq`. -/
def dotColor (dsq proximity dist : ℚ) (baseRgb activeRgb : Rgb) : Rgb :=
  if dsq ≤ proximity * proximity then
    let t := 1 - dist / proximity
    ⟨lerpChannel baseRgb.r activeRgb.r t,
     lerpChannel baseRgb.g activeRgb.g t,
     lerpChannel baseRgb.b activeRgb.b t⟩
  else baseRgb

/-- `pointerRef.current` (App.jsx line 40). -/
structure PointerState where
  x : ℚ
  y : ℚ
  vx : ℚ
  vy : ℚ
  speed : ℚ
  lastTime : ℚ
  lastX : ℚ
  lastY : ℚ
deriving DecidableEq, Repr

/-- The initial pointer state `{x:0, y:0, vx:0, vy:0, speed:0, lastTime:0,
lastX:0, lastY:0}` (App.jsx line 40). -/
def initialPointer : PointerState := ⟨0, 0, 0, 0, 0, 0, 0, 0⟩

/-- `dt = pr.lastTime ? now - pr.lastTime : 16` (App.jsx line 153):
`0` is falsy, so a zero `lastTime` substitutes a fixed 16 ms delta. -/
def moveDt (pr : PointerState) (now : ℚ) : ℚ :=
  if pr.lastTime ≠ 0 then now - pr.lastTime else 16

/-- `vx = (dx / dt) * 1000` with `dx = e.clientX - pr.lastX`
(App.jsx lines 154, 156). -/
def rawVx (pr : PointerState) (clientX now : ℚ) : ℚ :=
  (clientX - pr.lastX) / moveDt pr now * 1000

/-- `vy = (dy / dt) * 1000` with `dy = e.clientY - pr.lastY`
(App.jsx lines 155, 157). -/
def rawVy (pr : PointerState) (clientY now : ℚ) : ℚ :=
  (clientY - pr.lastY) / moveDt pr now * 1000

/-- The speed clamp (App.jsx lines 158-164): `speed = Math.hypot(vx, vy)`;
if it exceeds `maxSpeed`, rescale both components by
`scale = maxSpeed / speed` and store `maxSpeed`. `speed` is passed
explicitly; the theorems constrain it to be the hypotenuse of `(vx, vy)`. -/
def clampedVel (vx vy speed maxSpeed : ℚ) : ℚ × ℚ × ℚ :=
  if speed > maxSpeed then
    (vx * (maxSpeed / speed), vy * (maxSpeed / speed), maxSpeed)
  else (vx, vy, speed)

/-- The pointer-state update performed by `onMove` (App.jsx lines 150-174):
raw velocity from the last sample, clamp, then record time, position and
velocity. `speed` is the hypotenuse of the raw `(vx, vy)`, passed
explicitly. -/
def onMovePointer (pr : PointerState) (clientX clientY now speed rectLeft rectTop maxSpeed : ℚ) :
    PointerState :=
  let vx := rawVx pr clientX now
  let vy := rawVy pr clientY now
  let c := clampedVel vx vy speed maxSpeed
  { x := clientX - rectLeft, y := clientY - rectTop
    vx := c.1, vy := c.2.1, speed := c.2.2
    lastTime := now, lastX := clientX, lastY := clientY }

/-- One spark as created by `handleClick` (App.jsx lines 333-338). The
source stores `angle = 2π·i/sparkCount`; since π is irrational the
embedding stores the rational coefficient of π, so the stored `angle` is
`2·i/sparkCount` and the source's angle is `angle * π`. -/
structure Spark where
  x : ℚ
  y : ℚ
  angle : ℚ
  startTime : ℚ
deriving DecidableEq, Repr

/-- `handleClick` (App.jsx lines 331-340): build `sparkCount` sparks at the
click point, spark `i` at angle `2π·i/sparkCount` (stored in units of π),
all stamped with the same `now`, and push them onto the collection. -/
def handleClick (clientX clientY now : ℚ) (sparkCount : ℕ) (sparks : List Spark) : List Spark :=
  sparks ++ (List.range sparkCount).map fun i =>
    ⟨clientX, clientY, 2 * (i : ℚ) / (sparkCount : ℚ), now⟩

/-- The per-frame filter of the spark draw loop (App.jsx lines 298-320): a
spark with `elapsed = timestamp - startTime ≥ duration` returns `false`
(removed); otherwise it is drawn and returns `true` (kept). -/
def stepSparks (timestamp duration : ℚ) (sparks : List Spark) : List Spark :=
  sparks.filter fun spark =>
    let elapsed := timestamp - spark.startTime
    if elapsed ≥ duration then false else true

/-- `easeFunc` (App.jsx lines 276-286): switch on the easing name, with
ease-out `t·(2-t)` as the default branch. -/
def easeFunc (easing : String) (t : ℚ) : ℚ :=
  if easing = "linear" then t
  else if easing = "ease-in" then t * t
  else if easing = "ease-in-out" then
    (if t < 1 / 2 then 2 * t * t else -1 + (4 - 2 * t) * t)
  else t * (2 - t)

/-- `distance = eased * sparkRadius * extraScale` (App.jsx line 304). -/
def sparkDistance (eased sparkRadius extraScale : ℚ) : ℚ :=
  eased * sparkRadius * extraScale

/-- `lineLength = sparkSize * (1 - eased)` (App.jsx line 305). -/
def lineLength (sparkSize eased : ℚ) : ℚ := sparkSize * (1 - eased)

/-- `x1 = spark.x + distance * Math.cos(spark.angle)` (App.jsx line 307);
`c` stands for the cosine of the spark's angle. -/
def sparkNearX (sx dist c : ℚ) : ℚ := sx + dist * c

/-- `y1 = spark.y + distance * Math.sin(spark.angle)` (App.jsx line 308);
`s` stands for the sine of the spark's angle. -/
def sparkNearY (sy dist s : ℚ) : ℚ := sy + dist * s

/-- Phase of a dot's displacement animation: at rest, inside the inertia
tween launched by `gsap.to(dot, {inertia: …})`, or inside the elastic
return tween launched by that tween's `onComplete`. -/
inductive Phase where
  | atRest
  | inertiaPhase
  | returnPhase
deriving DecidableEq, Repr

/-- Animation-relevant state of one dot: the `_inertiaApplied` guard flag
and the phase of the (unique, since every launch first runs
`gsap.killTweensOf(dot)`) tween currently owning the dot. `launches`
counts how many displacement animations have been started on the dot. -/
structure DotAnim where
  inertiaApplied : Bool
  phase : Phase
  launches : ℕ
deriving DecidableEq, Repr

/-- Events affecting one dot's displacement animation: `trigger` is a
pointer-move or click for which the dot is eligible (speed above the
trigger and inside `proximity`, lines 178-190, or inside `shockRadius`,
lines 200-213); `inertiaComplete` is the inertia tween's `onComplete`
(lines 185-188 / 208-211); `returnComplete` is the end of the elastic
return tween. -/
inductive DotEvent where
  | trigger
  | inertiaComplete
  | returnComplete
deriving DecidableEq, Repr

/-- One step of the displacement state machine, read off App.jsx lines
176-214: a `trigger` is ignored while `_inertiaApplied` is set, otherwise
it sets the flag, kills any running tween and launches the inertia tween;
the inertia tween's `onComplete` launches the elastic return and clears
the flag immediately (lines 186-187); the return tween ends at rest. -/
def dotStep (st : DotAnim) (ev : DotEvent) : DotAnim :=
  match ev with
  | .trigger =>
      if st.inertiaApplied then st
      else { inertiaApplied := true, phase := .inertiaPhase, launches := st.launches + 1 }
  | .inertiaComplete =>
      match st.phase with
      | .inertiaPhase =>
          { inertiaApplied := false, phase := .returnPhase, launches := st.launches }
      | _ => st
  | .returnComplete =>
      match st.phase with
      | .returnPhase => { st with phase := .atRest }
      | _ => st

/-- A freshly built dot: at rest, guard flag down (App.jsx line 85). -/
def initDot : DotAnim := ⟨false, .atRest, 0⟩

/-- Run a sequence of events on a freshly built dot. -/
def runDot (evs : List DotEvent) : DotAnim := evs.foldl dotStep initDot

/-! ## Helper lemmas -/

lemma hexVal_nonneg_le (c : Char) (h : isHexDigit c = true) :
    0 ≤ hexVal c ∧ hexVal c ≤ 15 := by
  unfold isHexDigit at h
  unfold hexVal
  simp [Char.le_def, UInt32.le_def, BitVec.le_def, Char.toNat, UInt32.toNat] at h ⊢
  split_ifs with h1 h2 <;>
    simp [Char.le_def, UInt32.le_def, BitVec.le_def, Char.toNat, UInt32.toNat] at h1 <;>
    first
      | (simp [Char.le_def, UInt32.le_def, BitVec.le_def, Char.toNat,
          UInt32.toNat] at h2
         omega)
      | omega

lemma pairVal_nonneg_le (a b : Char) (ha : isHexDigit a = true)
    (hb : isHexDigit b = true) : 0 ≤ pairVal a b ∧ pairVal a b ≤ 255 := by
  have h1 := hexVal_nonneg_le a ha
  have h2 := hexVal_nonneg_le b hb
  unfold pairVal
  omega

lemma throttleRun_cons (limit : ℚ) (st : ThrottleState) (now : ℚ) (rest : List ℚ) :
    throttleRun limit st (now :: rest) =
      if now - st.lastCall ≥ limit then now :: throttleRun limit ⟨now⟩ rest
      else throttleRun limit st rest := by
  simp only [throttleRun, throttleStep]
  split_ifs <;> simp_all

lemma throttleRun_sublist (limit : ℚ) (st : ThrottleState) (evs : List ℚ) :
    (throttleRun limit st evs).Sublist evs := by
  induction evs generalizing st with
  | nil => simp [throttleRun]
  | cons now rest ih =>
      rw [throttleRun_cons]
      split_ifs
      · exact List.Sublist.cons₂ now (ih _)
      · exact List.Sublist.cons now (ih _)

lemma throttleRun_chain (limit : ℚ) (st : ThrottleState) (evs : List ℚ) :
    List.Chain' (fun a b => limit ≤ b - a) (throttleRun limit st evs) ∧
    ∀ h ∈ (throttleRun limit st evs).head?, limit ≤ h - st.lastCall := by
  induction evs generalizing st with
  | nil => simp [throttleRun]
  | cons now rest ih =>
      rw [throttleRun_cons]
      split_ifs with hfire
      · simp only [List.head?_cons, Option.mem_some_iff]
        refine ⟨?_, ?_⟩
        · refine List.chain'_cons'.2 ⟨?_, (ih ⟨now⟩).1⟩
          intro y hy
          have := (ih ⟨now⟩).2 y hy
          simpa using this
        · rintro h rfl
          linarith
      · exact ih st

/-! ## Claims -/

/-- C8: A color string failing the strict hex pattern
`/^#?([a-f\d]{2})([a-f\d]{2})([a-f\d]{2})$/i` yields the neutral default
`{r:0, g:0, b:0}` instead of an error, and a matching string yields the
three decoded two-digit channel values (each a valid byte). -/
theorem hexToRgb_spec (hex : List Char) :
    (hexMatches hex = false → hexToRgb hex = ⟨0, 0, 0⟩) ∧
    (∀ c1 c2 c3 c4 c5 c6, hexMatches hex = true →
      hexBody hex = [c1, c2, c3, c4, c5, c6] →
      hexToRgb hex = ⟨pairVal c1 c2, pairVal c3 c4, pairVal c5 c6⟩ ∧
      (0 ≤ pairVal c1 c2 ∧ pairVal c1 c2 ≤ 255) ∧
      (0 ≤ pairVal c3 c4 ∧ pairVal c3 c4 ≤ 255) ∧
      (0 ≤ pairVal c5 c6 ∧ pairVal c5 c6 ≤ 255)) := by
  constructor
  · intro hfail
    unfold hexToRgb
    simp [hfail]
  · intro c1 c2 c3 c4 c5 c6 hmatch hbody
    have hdigits : (hexBody hex).all isHexDigit = true := by
      unfold hexMatches at hmatch
      simp only [Bool.and_eq_true] at hmatch
      exact hmatch.2
    rw [hbody] at hdigits
    simp only [List.all_cons, List.all_nil, Bool.and_eq_true, Bool.and_true] at hdigits
    obtain ⟨d1, d2, d3, d4, d5, d6⟩ := hdigits
    refine ⟨?_, pairVal_nonneg_le c1 c2 d1 d2, pairVal_nonneg_le c3 c4 d3 d4,
      pairVal_nonneg_le c5 c6 d5 d6⟩
    unfold hexToRgb
    rw [if_pos hmatch, hbody]

/-- C8 witness: the malformed string `"zz"` falls back to black, and
`"#FF8C00"` (the app's spark/active color) decodes to `(255, 140, 0)`. -/
theorem hexToRgb_spec_witness :
    (hexMatches ("zz".toList) = false ∧ hexToRgb ("zz".toList) = ⟨0, 0, 0⟩) ∧
    (hexMatches ("#FF8C00".toList) = true ∧
      hexToRgb ("#FF8C00".toList) = ⟨255, 140, 0⟩) := by
  refine ⟨⟨by decide, (hexToRgb_spec _).1 (by decide)⟩, ⟨by decide, ?_⟩⟩
  have h := (hexToRgb_spec ("#FF8C00".toList)).2 'F' 'F' '8' 'C' '0' '0'
    (by decide) (by decide)
  rw [h.1]
  decide

/-- C7: the throttled pointer-move handler fires at most once per `limit`
interval: consecutive fired timestamps are at least `limit` apart, the
fired timestamps form a sublist of the incoming event timestamps (events
inside the interval are dropped, never queued and replayed), and the grid
instance uses the 50 ms limit. -/
theorem throttledMove_spec (limit : ℚ) (st : ThrottleState) (events : List ℚ) :
    List.Chain' (fun a b => limit ≤ b - a) (throttleRun limit st events) ∧
    (throttleRun limit st events).Sublist events ∧
    gridThrottleLimit = 50 :=
  ⟨(throttleRun_chain limit st events).1, throttleRun_sublist limit st events, rfl⟩

lemma flatMapRange_getElem {α : Type} (f : ℕ → ℕ → α) (m : ℕ) :
    ∀ (r i : ℕ), i < r * m →
      ((List.range r).flatMap fun y => (List.range m).map (f y))[i]? =
        some (f (i / m) (i % m)) := by
  intro r
  induction r with
  | zero => intro i hi; omega
  | succ r ih =>
      intro i hi
      have hi2 : i < r * m + m := by
        rw [Nat.succ_mul] at hi
        exact hi
      rw [List.range_succ, List.flatMap_append]
      have hlen : ((List.range r).flatMap fun y => (List.range m).map (f y)).length
          = r * m := by
        rw [List.length_flatMap]
        simp [Function.comp_def, List.sum_replicate, smul_eq_mul, Nat.mul_comm]
      by_cases hlt : i < r * m
      · rw [List.getElem?_append, if_pos (by rw [hlen]; exact hlt)]
        exact ih i hlt
      · have hge : r * m ≤ i := le_of_not_lt hlt
        have hm : 0 < m := by omega
        rw [List.getElem?_append, if_neg (by rw [hlen]; omega), hlen]
        have hsingle : [r].flatMap (fun y => (List.range m).map (f y))
            = (List.range m).map (f r) := by simp
        rw [hsingle]
        have hidx : i - r * m < m := by omega
        rw [List.getElem?_map, List.getElem?_range hidx]
        have hdiv : i / m = r := Nat.div_eq_of_lt_le (by omega) (by rw [Nat.succ_mul]; omega)
        have hdm := Nat.div_add_mod i m
        rw [hdiv, Nat.mul_comm] at hdm
        have hmod : i % m = i - r * m := by omega
        rw [hdiv, hmod]
        rfl

lemma flatMapRange_length {α : Type} (f : ℕ → ℕ → α) (m r : ℕ) :
    ((List.range r).flatMap fun y => (List.range m).map (f y)).length = r * m := by
  rw [List.length_flatMap]
  simp [Function.comp_def, List.sum_replicate, smul_eq_mul, Nat.mul_comm]

lemma gridCoord_bounds (w d g : ℚ) (x : ℕ) (hd : 0 ≤ d) (hcell : 0 < d + g)
    (hx : x < (⌊(w + g) / (d + g)⌋).toNat) :
    0 ≤ (w - ((d + g) * ⌊(w + g) / (d + g)⌋ - g)) / 2 + d / 2 + x * (d + g) ∧
    (w - ((d + g) * ⌊(w + g) / (d + g)⌋ - g)) / 2 + d / 2 + x * (d + g) ≤ w := by
  set n : ℤ := ⌊(w + g) / (d + g)⌋ with hn
  have hxz : (x : ℤ) ≤ n - 1 := by omega
  have hxq : (x : ℚ) ≤ (n : ℚ) - 1 := by exact_mod_cast hxz
  have hfl : (n : ℚ) ≤ (w + g) / (d + g) := Int.floor_le _
  have hnc : (n : ℚ) * (d + g) ≤ w + g := (le_div_iff₀ hcell).mp hfl
  have hxc : (x : ℚ) * (d + g) ≤ ((n : ℚ) - 1) * (d + g) :=
    mul_le_mul_of_nonneg_right hxq (le_of_lt hcell)
  have hx0 : 0 ≤ (x : ℚ) * (d + g) :=
    mul_nonneg (Nat.cast_nonneg x) (le_of_lt hcell)
  constructor
  · nlinarith
  · nlinarith

lemma jsRound_intCast (n : ℤ) : jsRound (n : ℚ) = n := by
  unfold jsRound
  rw [Int.floor_eq_iff]
  constructor
  · linarith
  · linarith

/-- C1: a grid rebuild produces exactly
`floor((W+g)/(d+g)) * floor((H+g)/(d+g))` dots, laid out in row-major
order (the `i`-th dot is at column `i % cols` of row `i / cols`), and
every dot's rest center lies inside `[0, W] × [0, H]`. -/
theorem buildGrid_spec (width height dotSize gap : ℚ) (hW : 0 ≤ width)
    (hH : 0 ≤ height) (hd : 0 ≤ dotSize) (hg : 0 ≤ gap)
    (hcell : 0 < dotSize + gap) :
    (buildGrid width height dotSize gap).length =
      (gridRows height dotSize gap).toNat * (gridCols width dotSize gap).toNat ∧
    ((buildGrid width height dotSize gap).length : ℤ) =
      gridRows height dotSize gap * gridCols width dotSize gap ∧
    (∀ i, i < (gridRows height dotSize gap).toNat * (gridCols width dotSize gap).toNat →
      (buildGrid width height dotSize gap)[i]? =
        some (dotAt width height dotSize gap
          (i % (gridCols width dotSize gap).toNat)
          (i / (gridCols width dotSize gap).toNat))) ∧
    (∀ dot ∈ buildGrid width height dotSize gap,
      0 ≤ dot.cx ∧ dot.cx ≤ width ∧ 0 ≤ dot.cy ∧ dot.cy ≤ height) := by
  have hlen : (buildGrid width height dotSize gap).length =
      (gridRows height dotSize gap).toNat * (gridCols width dotSize gap).toNat := by
    unfold buildGrid
    exact flatMapRange_length _ _ _
  have hr0 : 0 ≤ gridRows height dotSize gap := by
    unfold gridRows cellSize
    exact Int.floor_nonneg.2 (div_nonneg (by linarith) (by linarith))
  have hc0 : 0 ≤ gridCols width dotSize gap := by
    unfold gridCols cellSize
    exact Int.floor_nonneg.2 (div_nonneg (by linarith) (by linarith))
  refine ⟨hlen, ?_, ?_, ?_⟩
  · rw [hlen]
    push_cast [Int.toNat_of_nonneg hr0, Int.toNat_of_nonneg hc0]
    ring
  · intro i hi
    unfold buildGrid
    exact flatMapRange_getElem (fun y x => dotAt width height dotSize gap x y)
      (gridCols width dotSize gap).toNat (gridRows height dotSize gap).toNat i hi
  · intro dot hmem
    unfold buildGrid at hmem
    rw [List.mem_flatMap] at hmem
    obtain ⟨y, hy, hmem2⟩ := hmem
    rw [List.mem_map] at hmem2
    obtain ⟨x, hxmem, rfl⟩ := hmem2
    rw [List.mem_range] at hy hxmem
    simp only [gridCols, cellSize] at hxmem
    simp only [gridRows, cellSize] at hy
    have hxB := gridCoord_bounds width dotSize gap x hd hcell hxmem
    have hyB := gridCoord_bounds height dotSize gap y hd hcell hy
    simp only [dotAt, gridStartX, gridStartY, gridCols, gridRows, cellSize]
    exact ⟨hxB.1, hxB.2, hyB.1, hyB.2⟩

/-- C1 witness: the app's background grid (`dotSize = 2`, `gap = 26`) in a
300×300 container: cell pitch 28, `floor(326/28) = 11` columns and rows,
121 dots, and the 14th dot sits at column `13 % 11 = 2` of row
`13 / 11 = 1`. -/
theorem buildGrid_spec_witness :
    ((0 : ℚ) ≤ 300 ∧ (0 : ℚ) ≤ 2 ∧ (0 : ℚ) ≤ 26 ∧ (0 : ℚ) < 2 + 26) ∧
    (buildGrid 300 300 2 26).length =
      (gridRows 300 2 26).toNat * (gridCols 300 2 26).toNat ∧
    (gridCols 300 2 26).toNat = 11 ∧
    (buildGrid 300 300 2 26).length = 121 ∧
    (buildGrid 300 300 2 26)[13]? =
      some (dotAt 300 300 2 26 (13 % (gridCols 300 2 26).toNat)
        (13 / (gridCols 300 2 26).toNat)) := by
  have h := buildGrid_spec 300 300 2 26 (by norm_num) (by norm_num) (by norm_num)
    (by norm_num) (by norm_num)
  have hc : (gridCols 300 2 26).toNat = 11 := by
    norm_num [gridCols, cellSize]
    rfl
  have hr : (gridRows 300 2 26).toNat = 11 := by
    norm_num [gridRows, cellSize]
    rfl
  refine ⟨⟨by norm_num, by norm_num, by norm_num, by norm_num⟩, h.1, hc, ?_,
    h.2.2.1 13 (by rw [hc, hr]; norm_num)⟩
  rw [h.1, hc, hr]

lemma clampedVel_core (vx vy speed maxSpeed : ℚ) (hs : 0 ≤ speed)
    (hsq : speed * speed = vx * vx + vy * vy) (hm : 0 < maxSpeed) :
    (clampedVel vx vy speed maxSpeed).2.2 ≤ maxSpeed ∧
    0 ≤ (clampedVel vx vy speed maxSpeed).2.2 ∧
    (clampedVel vx vy speed maxSpeed).2.2 * (clampedVel vx vy speed maxSpeed).2.2 =
      (clampedVel vx vy speed maxSpeed).1 * (clampedVel vx vy speed maxSpeed).1 +
      (clampedVel vx vy speed maxSpeed).2.1 * (clampedVel vx vy speed maxSpeed).2.1 ∧
    (clampedVel vx vy speed maxSpeed).2.2 = min maxSpeed speed ∧
    (speed > maxSpeed →
      (clampedVel vx vy speed maxSpeed).1 = vx * (maxSpeed / speed) ∧
      (clampedVel vx vy speed maxSpeed).2.1 = vy * (maxSpeed / speed) ∧
      0 < maxSpeed / speed) ∧
    (∃ k, 0 < k ∧ (clampedVel vx vy speed maxSpeed).1 = k * vx ∧
      (clampedVel vx vy speed maxSpeed).2.1 = k * vy) := by
  unfold clampedVel
  split_ifs with hclamp
  · have hspos : 0 < speed := lt_trans hm hclamp
    have hsne : speed ≠ 0 := ne_of_gt hspos
    have hkpos : 0 < maxSpeed / speed := div_pos hm hspos
    refine ⟨le_refl _, le_of_lt hm, ?_, ?_, fun _ => ⟨rfl, rfl, hkpos⟩,
      ⟨maxSpeed / speed, hkpos, by ring, by ring⟩⟩
    · show maxSpeed * maxSpeed =
        vx * (maxSpeed / speed) * (vx * (maxSpeed / speed)) +
        vy * (maxSpeed / speed) * (vy * (maxSpeed / speed))
      field_simp
      nlinarith [hsq]
    · show maxSpeed = min maxSpeed speed
      rw [min_eq_left (le_of_lt hclamp)]
  · push_neg at hclamp
    refine ⟨hclamp, hs, hsq, ?_, fun habs => absurd habs (not_lt.2 hclamp),
      ⟨1, one_pos, by ring, by ring⟩⟩
    show speed = min maxSpeed speed
    rw [min_eq_right hclamp]

/-- C3: provided `speed` is the hypotenuse of the raw `(vx, vy)` sample,
the stored speed after the clamp never exceeds `maxSpeed` and is still the
hypotenuse of the stored components; when the raw magnitude exceeds
`maxSpeed` both components are rescaled by the same positive factor
`maxSpeed / speed`, so in every case the stored velocity is a positive
multiple of the raw one (direction preserved). -/
theorem clampedVel_spec (vx vy speed maxSpeed : ℚ) (hs : 0 ≤ speed)
    (hsq : speed * speed = vx * vx + vy * vy) (hm : 0 < maxSpeed) :
    (clampedVel vx vy speed maxSpeed).2.2 ≤ maxSpeed ∧
    0 ≤ (clampedVel vx vy speed maxSpeed).2.2 ∧
    (clampedVel vx vy speed maxSpeed).2.2 * (clampedVel vx vy speed maxSpeed).2.2 =
      (clampedVel vx vy speed maxSpeed).1 * (clampedVel vx vy speed maxSpeed).1 +
      (clampedVel vx vy speed maxSpeed).2.1 * (clampedVel vx vy speed maxSpeed).2.1 ∧
    (speed > maxSpeed →
      (clampedVel vx vy speed maxSpeed).1 = vx * (maxSpeed / speed) ∧
      (clampedVel vx vy speed maxSpeed).2.1 = vy * (maxSpeed / speed) ∧
      0 < maxSpeed / speed) ∧
    (∃ k, 0 < k ∧ (clampedVel vx vy speed maxSpeed).1 = k * vx ∧
      (clampedVel vx vy speed maxSpeed).2.1 = k * vy) := by
  obtain ⟨h1, h2, h3, _, h5, h6⟩ := clampedVel_core vx vy speed maxSpeed hs hsq hm
  exact ⟨h1, h2, h3, h5, h6⟩

/-- C3 witness: the raw sample `(vx, vy) = (3, 4)` has hypotenuse 5; with
`maxSpeed = 1` the clamp stores speed 1 and a positively rescaled vector. -/
theorem clampedVel_spec_witness :
    ((0 : ℚ) ≤ 5 ∧ (5 : ℚ) * 5 = 3 * 3 + 4 * 4 ∧ (0 : ℚ) < 1) ∧
    ((clampedVel 3 4 5 1).2.2 ≤ 1 ∧
      (∃ k, 0 < k ∧ (clampedVel 3 4 5 1).1 = k * 3 ∧
        (clampedVel 3 4 5 1).2.1 = k * 4)) := by
  have h := clampedVel_spec 3 4 5 1 (by norm_num) (by norm_num) (by norm_num)
  exact ⟨⟨by norm_num, by norm_num, by norm_num⟩, h.1, h.2.2.2.2⟩

/-- C9: on the very first pointer-move (fresh `pointerRef` with
`lastTime = 0`), the handler substitutes the fixed 16 ms delta and
measures the position delta from `(lastX, lastY) = (0, 0)`: raw velocity
is `(clientX/16·1000, clientY/16·1000)`, so the stored speed is
`min(maxSpeed, hypot(clientX, clientY)/16·1000)` in the direction of
`(clientX, clientY)` even though the pointer made no real movement. -/
theorem firstMove_spec (clientX clientY now rectLeft rectTop maxSpeed h : ℚ)
    (hh : 0 ≤ h) (hsq : h * h = clientX * clientX + clientY * clientY)
    (hm : 0 < maxSpeed) :
    moveDt initialPointer now = 16 ∧
    rawVx initialPointer clientX now = clientX / 16 * 1000 ∧
    rawVy initialPointer clientY now = clientY / 16 * 1000 ∧
    (onMovePointer initialPointer clientX clientY now (h / 16 * 1000)
        rectLeft rectTop maxSpeed).speed = min maxSpeed (h / 16 * 1000) ∧
    (∃ k, 0 < k ∧
      (onMovePointer initialPointer clientX clientY now (h / 16 * 1000)
          rectLeft rectTop maxSpeed).vx = k * clientX ∧
      (onMovePointer initialPointer clientX clientY now (h / 16 * 1000)
          rectLeft rectTop maxSpeed).vy = k * clientY) := by
  have hdt : moveDt initialPointer now = 16 := by
    simp [moveDt, initialPointer]
  have hvx : rawVx initialPointer clientX now = clientX / 16 * 1000 := by
    unfold rawVx
    rw [hdt]
    norm_num [initialPointer]
  have hvy : rawVy initialPointer clientY now = clientY / 16 * 1000 := by
    unfold rawVy
    rw [hdt]
    norm_num [initialPointer]
  have hs : 0 ≤ h / 16 * 1000 := by positivity
  have hsq2 : (h / 16 * 1000) * (h / 16 * 1000) =
      (clientX / 16 * 1000) * (clientX / 16 * 1000) +
      (clientY / 16 * 1000) * (clientY / 16 * 1000) := by
    field_simp
    nlinarith [hsq]
  obtain ⟨_, _, _, hmin, _, k, hk, hkx, hky⟩ :=
    clampedVel_core (clientX / 16 * 1000) (clientY / 16 * 1000)
      (h / 16 * 1000) maxSpeed hs hsq2 hm
  refine ⟨hdt, hvx, hvy, ?_, ?_⟩
  · show (clampedVel (rawVx initialPointer clientX now)
        (rawVy initialPointer clientY now) (h / 16 * 1000) maxSpeed).2.2 = _
    rw [hvx, hvy, hmin]
  · refine ⟨k * (1000 / 16), by positivity, ?_, ?_⟩
    · show (clampedVel (rawVx initialPointer clientX now)
          (rawVy initialPointer clientY now) (h / 16 * 1000) maxSpeed).1 = _
      rw [hvx, hvy, hkx]
      ring
    · show (clampedVel (rawVx initialPointer clientX now)
          (rawVy initialPointer clientY now) (h / 16 * 1000) maxSpeed).2.1 = _
      rw [hvx, hvy, hky]
      ring

/-- C9 witness: a first sample at client position `(3, 4)` (hypotenuse 5)
with the default `maxSpeed = 5000` reports speed `5/16·1000 = 312.5`. -/
theorem firstMove_spec_witness :
    ((0 : ℚ) ≤ 5 ∧ (5 : ℚ) * 5 = 3 * 3 + 4 * 4 ∧ (0 : ℚ) < 5000) ∧
    (onMovePointer initialPointer 3 4 100 (5 / 16 * 1000) 0 0 5000).speed =
      min 5000 (5 / 16 * 1000) := by
  have h := firstMove_spec 3 4 100 0 0 5000 5 (by norm_num) (by norm_num) (by norm_num)
  exact ⟨⟨by norm_num, by norm_num, by norm_num⟩, h.2.2.2.1⟩

lemma lerpChannel_zero (base active : ℤ) : lerpChannel base active 0 = base := by
  unfold lerpChannel
  rw [show (base : ℚ) + ((active : ℚ) - (base : ℚ)) * 0 = (base : ℚ) by ring]
  exact jsRound_intCast base

lemma lerpChannel_one (base active : ℤ) : lerpChannel base active 1 = active := by
  unfold lerpChannel
  rw [show (base : ℚ) + ((active : ℚ) - (base : ℚ)) * 1 = (active : ℚ) by ring]
  exact jsRound_intCast active

/-- C4: provided `dist` is the square root of the pointer-to-rest-center
squared distance `dsq`, a dot within the proximity radius is filled with
the per-channel rounded linear interpolation at `t = 1 - dist/proximity`:
at `dist = proximity` exactly the base color, at `dist = 0` exactly the
active color; a dot strictly beyond the radius keeps the base color. -/
theorem dotColor_spec (dsq proximity dist : ℚ) (baseRgb activeRgb : Rgb)
    (hprox : 0 < proximity) (hd : 0 ≤ dist) (hsq : dist * dist = dsq) :
    (dist = proximity → dotColor dsq proximity dist baseRgb activeRgb = baseRgb) ∧
    (dist = 0 → dotColor dsq proximity dist baseRgb activeRgb = activeRgb) ∧
    (proximity < dist → dotColor dsq proximity dist baseRgb activeRgb = baseRgb) ∧
    (dist ≤ proximity →
      dotColor dsq proximity dist baseRgb activeRgb =
        ⟨lerpChannel baseRgb.r activeRgb.r (1 - dist / proximity),
         lerpChannel baseRgb.g activeRgb.g (1 - dist / proximity),
         lerpChannel baseRgb.b activeRgb.b (1 - dist / proximity)⟩) := by
  have hin : dist ≤ proximity → dsq ≤ proximity * proximity := by
    intro hle
    nlinarith
  have hformula : dist ≤ proximity →
      dotColor dsq proximity dist baseRgb activeRgb =
        ⟨lerpChannel baseRgb.r activeRgb.r (1 - dist / proximity),
         lerpChannel baseRgb.g activeRgb.g (1 - dist / proximity),
         lerpChannel baseRgb.b activeRgb.b (1 - dist / proximity)⟩ := by
    intro hle
    unfold dotColor
    rw [if_pos (hin hle)]
  refine ⟨?_, ?_, ?_, hformula⟩
  · intro heq
    rw [hformula (le_of_eq heq), heq, div_self (ne_of_gt hprox)]
    rw [show (1 : ℚ) - 1 = 0 by ring]
    rw [lerpChannel_zero, lerpChannel_zero, lerpChannel_zero]
  · intro heq
    rw [hformula (heq ▸ le_of_lt hprox), heq, zero_div]
    rw [show (1 : ℚ) - 0 = 1 by ring]
    rw [lerpChannel_one, lerpChannel_one, lerpChannel_one]
  · intro hout
    unfold dotColor
    rw [if_neg]
    rw [← hsq]
    push_neg
    nlinarith

/-- C4 witness: the app's grid (`proximity = 90`, base `#dcdcdc`, active
`#FF8C00`): at distance 90 the fill is the base color, at distance 0 the
active color, and at distance 91 the base color. -/
theorem dotColor_spec_witness :
    ((0 : ℚ) < 90 ∧ (0 : ℚ) ≤ 90 ∧ (90 : ℚ) * 90 = 8100) ∧
    dotColor 8100 90 90 ⟨220, 220, 220⟩ ⟨255, 140, 0⟩ = ⟨220, 220, 220⟩ ∧
    dotColor 0 90 0 ⟨220, 220, 220⟩ ⟨255, 140, 0⟩ = ⟨255, 140, 0⟩ ∧
    dotColor 8281 90 91 ⟨220, 220, 220⟩ ⟨255, 140, 0⟩ = ⟨220, 220, 220⟩ := by
  refine ⟨⟨by norm_num, by norm_num, by norm_num⟩, ?_, ?_, ?_⟩
  · exact (dotColor_spec 8100 90 90 ⟨220, 220, 220⟩ ⟨255, 140, 0⟩
      (by norm_num) (by norm_num) (by norm_num)).1 rfl
  · exact (dotColor_spec 0 90 0 ⟨220, 220, 220⟩ ⟨255, 140, 0⟩
      (by norm_num) (by norm_num) (by norm_num)).2.1 rfl
  · exact (dotColor_spec 8281 90 91 ⟨220, 220, 220⟩ ⟨255, 140, 0⟩
      (by norm_num) (by norm_num) (by norm_num)).2.2.1 (by norm_num)

/-- C5: every click appends exactly `sparkCount` sparks: the previous
collection is an unchanged prefix, and the `i`-th new spark carries the
click's origin, the shared creation timestamp and angle `2π·i/sparkCount`
(stored as the coefficient of π). -/
theorem handleClick_spec (clientX clientY now : ℚ) (sparkCount : ℕ)
    (sparks : List Spark) :
    (handleClick clientX clientY now sparkCount sparks).length
        = sparks.length + sparkCount ∧
    (handleClick clientX clientY now sparkCount sparks).take sparks.length = sparks ∧
    ∀ i < sparkCount,
      (handleClick clientX clientY now sparkCount sparks)[sparks.length + i]? =
        some ⟨clientX, clientY, 2 * (i : ℚ) / (sparkCount : ℚ), now⟩ := by
  unfold handleClick
  refine ⟨by simp, ?_, ?_⟩
  · rw [List.take_left]
  · intro i hi
    rw [List.getElem?_append_right (by omega)]
    simp [hi]

/-- C5 witness: a click at `(160, 120)` at time `1000` with the app's
`sparkCount = 8` on an empty collection yields 8 sparks; the fourth one
sits at angle `2·3/8` (that is `3π/4`). -/
theorem handleClick_spec_witness :
    (handleClick 160 120 1000 8 []).length = ([] : List Spark).length + 8 ∧
    (handleClick 160 120 1000 8 [])[([] : List Spark).length + 3]? =
      some ⟨160, 120, 2 * ((3 : ℕ) : ℚ) / ((8 : ℕ) : ℚ), 1000⟩ :=
  ⟨(handleClick_spec 160 120 1000 8 []).1,
   (handleClick_spec 160 120 1000 8 []).2.2 3 (by norm_num)⟩

/-- C6: the per-frame filter keeps a spark exactly when its age
`timestamp - startTime` is still below `duration` (removal at age ≥
duration), so a frame whose timestamp is at or past every spark's
`startTime + duration` empties the collection. -/
theorem stepSparks_spec (timestamp duration : ℚ) (sparks : List Spark) :
    stepSparks timestamp duration sparks =
      sparks.filter (fun spark => decide (timestamp - spark.startTime < duration)) ∧
    ((∀ spark ∈ sparks, spark.startTime + duration ≤ timestamp) →
      stepSparks timestamp duration sparks = []) := by
  have hfilter : stepSparks timestamp duration sparks =
      sparks.filter (fun spark => decide (timestamp - spark.startTime < duration)) := by
    unfold stepSparks
    refine List.filter_congr ?_
    intro spark _
    show (if timestamp - spark.startTime ≥ duration then false else true)
        = decide (timestamp - spark.startTime < duration)
    split_ifs with hexp
    · simp [not_lt.2 hexp]
    · simp [lt_of_not_ge hexp]
  refine ⟨hfilter, ?_⟩
  intro hall
  rw [hfilter]
  refine List.filter_eq_nil_iff.2 ?_
  intro spark hmem
  have := hall spark hmem
  simp only [decide_eq_true_eq, not_lt]
  linarith

/-- C6 witness: the 8 sparks of a click at time 0 with the app's
`duration = 400` are all removed by a frame at time 500. -/
theorem stepSparks_spec_witness :
    (∀ spark ∈ handleClick 10 20 0 8 [], spark.startTime + 400 ≤ 500) ∧
    stepSparks 500 400 (handleClick 10 20 0 8 []) = [] := by
  have hall : ∀ spark ∈ handleClick 10 20 0 8 [], spark.startTime + 400 ≤ 500 := by
    simp [handleClick, List.range_succ]
    norm_num
  exact ⟨hall, (stepSparks_spec 500 400 (handleClick 10 20 0 8 [])).2 hall⟩

/-- C10: every easing mode (`linear`, `ease-in`, `ease-in-out` and the
default ease-out `t·(2-t)`) maps 0 to 0 and 1 to 1; hence at age 0 the
spark's near point coincides with its click origin for any direction
cosine/sine, its drawn line starts at full `sparkSize`, and the length
`sparkSize·(1-eased)` shrinks monotonically to 0 as `eased` grows to 1. -/
theorem easeFunc_spec (easing : String) :
    easeFunc easing 0 = 0 ∧ easeFunc easing 1 = 1 ∧
    (∀ sx sy sparkRadius extraScale c s,
      sparkNearX sx (sparkDistance (easeFunc easing 0) sparkRadius extraScale) c = sx ∧
      sparkNearY sy (sparkDistance (easeFunc easing 0) sparkRadius extraScale) s = sy) ∧
    (∀ sparkSize, lineLength sparkSize (easeFunc easing 0) = sparkSize) ∧
    (∀ sparkSize e1 e2, 0 ≤ sparkSize → e1 ≤ e2 →
      lineLength sparkSize e2 ≤ lineLength sparkSize e1) ∧
    (∀ sparkSize, lineLength sparkSize 1 = 0) := by
  have hends : easeFunc easing 0 = 0 ∧ easeFunc easing 1 = 1 := by
    constructor <;>
    · unfold easeFunc
      by_cases hL : easing = "linear"
      · norm_num [hL]
      · by_cases hI : easing = "ease-in"
        · norm_num [hL, hI]
        · by_cases hIO : easing = "ease-in-out"
          · norm_num [hL, hI, hIO]
          · norm_num [hL, hI, hIO]
  obtain ⟨h0, h1⟩ := hends
  refine ⟨h0, h1, ?_, ?_, ?_, ?_⟩
  · intro sx sy sparkRadius extraScale c s
    rw [h0]
    unfold sparkNearX sparkNearY sparkDistance
    constructor <;> ring
  · intro sparkSize
    rw [h0]
    unfold lineLength
    ring
  · intro sparkSize e1 e2 hs he
    unfold lineLength
    nlinarith
  · intro sparkSize
    unfold lineLength
    ring

/-- C10 witness: the app's spark configuration (`sparkSize = 12`, default
ease-out): endpoints of the ease curve, full length at age 0, shrinkage
from eased 1/2 to 3/4, and zero length at eased 1. -/
theorem easeFunc_spec_witness :
    easeFunc "ease-out" 0 = 0 ∧ easeFunc "ease-out" 1 = 1 ∧
    lineLength 12 (easeFunc "ease-out" 0) = 12 ∧
    ((0 : ℚ) ≤ 12 ∧ (1 : ℚ) / 2 ≤ 3 / 4 ∧
      lineLength 12 (3 / 4) ≤ lineLength 12 (1 / 2)) ∧
    lineLength 12 1 = 0 := by
  have h := easeFunc_spec "ease-out"
  exact ⟨h.1, h.2.1, h.2.2.2.1 12,
    ⟨by norm_num, by norm_num, h.2.2.2.2.1 12 (1 / 2) (3 / 4) (by norm_num) (by norm_num)⟩,
    h.2.2.2.2.2 12⟩

/-- C2 counterexample: on a fresh dot, `trigger` then the inertia tween's
`onComplete` leaves the dot inside the elastic return with
`_inertiaApplied` already cleared, and a further `trigger` — before any
`returnComplete` — launches a second displacement animation, so
re-triggering during the elastic return is possible. -/
theorem dot_retrigger_counterexample :
    (runDot [.trigger, .inertiaComplete]).phase = Phase.returnPhase ∧
    (runDot [.trigger, .inertiaComplete]).inertiaApplied = false ∧
    (runDot [.trigger, .inertiaComplete, .trigger]).launches = 2 ∧
    (runDot [.trigger, .inertiaComplete, .trigger]).phase = Phase.inertiaPhase := by
  decide

lemma dotStep_inv (st : DotAnim) (ev : DotEvent)
    (h : st.inertiaApplied = true ↔ st.phase = Phase.inertiaPhase) :
    ((dotStep st ev).inertiaApplied = true ↔
      (dotStep st ev).phase = Phase.inertiaPhase) := by
  obtain ⟨flag, phase, n⟩ := st
  cases ev <;> cases flag <;> cases phase <;> simp_all [dotStep]

lemma runDot_inv (evs : List DotEvent) :
    ((runDot evs).inertiaApplied = true ↔ (runDot evs).phase = Phase.inertiaPhase) := by
  suffices h : ∀ (evs : List DotEvent) (st : DotAnim),
      (st.inertiaApplied = true ↔ st.phase = Phase.inertiaPhase) →
      ((evs.foldl dotStep st).inertiaApplied = true ↔
        (evs.foldl dotStep st).phase = Phase.inertiaPhase) by
    exact h evs initDot (by simp [initDot])
  intro evs
  induction evs with
  | nil => intro st hst; simpa using hst
  | cons ev rest ih =>
      intro st hst
      exact ih (dotStep st ev) (dotStep_inv st ev hst)

/-- C2 amended: a `trigger` is a no-op exactly while `_inertiaApplied` is
set, which — on every reachable dot state — is during the inertia tween
only: the flag is cleared the moment the inertia tween completes (when the
elastic return is launched), so a `trigger` arriving during the elastic
return does launch a new displacement. -/
theorem dotStep_guard :
    (∀ st : DotAnim, st.inertiaApplied = true → dotStep st .trigger = st) ∧
    (∀ evs : List DotEvent,
      ((runDot evs).inertiaApplied = true ↔ (runDot evs).phase = Phase.inertiaPhase)) ∧
    (∀ st : DotAnim, st.phase = Phase.returnPhase → st.inertiaApplied = false →
      (dotStep st .trigger).launches = st.launches + 1) := by
  refine ⟨?_, runDot_inv, ?_⟩
  · intro st h
    simp [dotStep, h]
  · intro st hp hf
    simp [dotStep, hf]

/-- C2 amended witness: after a single trigger the flag blocks a second
trigger; after the inertia tween completes the dot is in the return phase
and a trigger launches displacement number two. -/
theorem dotStep_guard_witness :
    ((runDot [DotEvent.trigger]).inertiaApplied = true ∧
      dotStep (runDot [DotEvent.trigger]) DotEvent.trigger = runDot [DotEvent.trigger]) ∧
    ((runDot [DotEvent.trigger, DotEvent.inertiaComplete]).phase = Phase.returnPhase ∧
      (dotStep (runDot [DotEvent.trigger, DotEvent.inertiaComplete])
          DotEvent.trigger).launches =
        (runDot [DotEvent.trigger, DotEvent.inertiaComplete]).launches + 1) :=
  ⟨⟨by decide, dotStep_guard.1 _ (by decide)⟩,
   ⟨by decide, dotStep_guard.2.2 _ (by decide) (by decide)⟩⟩

end PixelPortfolio
